import Mathlib

/-
Verification development for the hporecord schema crate (src/lib.rs).
The Rust source is shallowly embedded: each serde-derived encoder and
decoder is written out explicitly, following the semantics of the serde
attributes that appear in the source (`tag`, `flatten`, `rename_all`,
`default`, `skip_serializing_if`, `with = "nullable_f64_vec"`), and the
wire form is a JSON value tree (serde_json).  IEEE doubles are modelled
at the granularity the crate uses them: a finite value is carried
exactly as a rational, and the three non-finite shapes are distinguished
constructors.
-/

set_option maxHeartbeats 1000000

namespace Hporecord

/-- Model of an IEEE double: a finite value carried exactly as a rational,
plus the three non-finite shapes.  Sub-ULP rounding plays no role in any
of the operations the crate performs on doubles (classification,
comparison, pass-through (de)serialization), so rationals are a faithful
carrier for the finite case. -/
inductive F64 where
  | finite (q : ℚ)
  | inf
  | negInf
  | nan
deriving DecidableEq

/-- Rust `f64::is_finite`. -/
def F64.isFinite : F64 → Bool
  | .finite _ => true
  | _ => false

/-- Rust `f64::is_nan`. -/
def F64.isNan : F64 → Bool
  | .nan => true
  | _ => false

/-- Rust `<=` on doubles: any comparison involving NaN is false; otherwise
the usual order with `-inf` least and `inf` greatest. -/
def F64.le : F64 → F64 → Bool
  | .nan, _ => false
  | _, .nan => false
  | .negInf, _ => true
  | _, .negInf => false
  | _, .inf => true
  | .inf, _ => false
  | .finite a, .finite b => decide (a ≤ b)

/-- Rust `f64::min`: if one argument is NaN the other is returned,
otherwise the smaller argument. -/
def F64.min (x y : F64) : F64 :=
  if x.isNan then y else if y.isNan then x else if F64.le x y then x else y

/-- Rust `f64::max`: if one argument is NaN the other is returned,
otherwise the larger argument. -/
def F64.max (x y : F64) : F64 :=
  if x.isNan then y else if y.isNan then x else if F64.le y x then x else y

/-- JSON value tree as produced/consumed by serde_json.  Numbers carry a
rational: serde_json's `Number` has no representation for NaN or the
infinities (non-finite doubles are written as `null`). -/
inductive Json where
  | null
  | bool (b : Bool)
  | num (q : ℚ)
  | str (s : String)
  | arr (elems : List Json)
  | obj (fields : List (String × Json))

/-- First field of an object with the given key (objects produced by the
encoders never repeat a key). -/
def getField : List (String × Json) → String → Option Json
  | [], _ => none
  | (k, v) :: rest, key => if k = key then some v else getField rest key

/-- Lookup of a top-level field of a JSON value; `none` on non-objects. -/
def Json.lookup : Json → String → Option Json
  | .obj fs, k => getField fs k
  | _, _ => none

/-- Rust `Span` (seconds as doubles); `end >= start` is not enforced by
the type. -/
structure Span where
  start : F64
  «end» : F64
deriving DecidableEq

/-- Rust `Span::new`. -/
def Span.new (start «end» : F64) : Span := ⟨start, «end»⟩

/-- Model of `std::time::Duration` contents: an exact nonnegative number
of seconds (sub-nanosecond rounding of `from_secs_f64` is abstracted
away; none of the claims depend on it). -/
def durationFromSecs : F64 → Option ℚ
  | .finite q => if 0 ≤ q ∧ q < 18446744073709551616 then some q else none
  | _ => none

/-- `Duration`'s subtraction: panics (None) when the result would be
negative. -/
def durationSub (a b : ℚ) : Option ℚ :=
  if b ≤ a then some (a - b) else none

/-- Rust `Span::duration`, i.e. `self.end() - self.start()` where the two
accessors are `Duration::from_secs_f64` conversions; `none` models a
panic (negative or non-finite operand, or negative difference). -/
def Span.duration (s : Span) : Option ℚ := do
  let e ← durationFromSecs s.«end»
  let st ← durationFromSecs s.start
  durationSub e st

/-- Rust `SpanDef`. -/
structure SpanDef where
  name : String
deriving DecidableEq

/-- Rust `Scale` enum. -/
inductive Scale where
  | Linear
  | Log
deriving DecidableEq

/-- Rust `Scale::is_default` (`*self == Self::Linear`). -/
def Scale.is_default (s : Scale) : Bool := decide (s = Scale.Linear)

/-- Rust `ParamRange` enum (internally tagged on the wire). -/
inductive ParamRange where
  | Numerical (min max : F64) (step : Option F64) (scale : Scale)
  | Categorical (choices : List String)
deriving DecidableEq

/-- Rust `ParamRange::continuous`. -/
def ParamRange.continuous (min max : F64) : ParamRange :=
  .Numerical min max none Scale.Linear

/-- Rust `ParamRange::log_continuous`. -/
def ParamRange.log_continuous (min max : F64) : ParamRange :=
  .Numerical min max none Scale.Log

/-- Rust `ParamRange::discrete`. -/
def ParamRange.discrete (min max step : F64) : ParamRange :=
  .Numerical min max (some step) Scale.Linear

/-- Rust `ParamRange::categorical`. -/
def ParamRange.categorical (choices : List String) : ParamRange :=
  .Categorical choices

/-- Rust `ParamRange::min`: the numerical lower bound, or `0.0` for a
categorical range. -/
def ParamRange.min : ParamRange → F64
  | .Numerical mn _ _ _ => mn
  | .Categorical _ => .finite 0

/-- Rust `ParamRange::max`: the numerical upper bound, or the choice
count (`choices.len() as f64`) for a categorical range. -/
def ParamRange.max : ParamRange → F64
  | .Numerical _ mx _ _ => mx
  | .Categorical choices => .finite (choices.length : ℚ)

/-- Rust `ParamRange::scale`. -/
def ParamRange.scale : ParamRange → Scale
  | .Numerical _ _ _ sc => sc
  | .Categorical _ => Scale.Linear

/-- Rust `ParamDef`: a name plus a flattened `ParamRange`. -/
structure ParamDef where
  name : String
  range : ParamRange
deriving DecidableEq

/-- Rust `ParamDef::continuous`. -/
def ParamDef.continuous (name : String) (min max : F64) : ParamDef :=
  ⟨name, ParamRange.continuous min max⟩

/-- Rust `ParamDef::log_continuous`. -/
def ParamDef.log_continuous (name : String) (min max : F64) : ParamDef :=
  ⟨name, ParamRange.log_continuous min max⟩

/-- Rust `ParamDef::discrete`. -/
def ParamDef.discrete (name : String) (min max step : F64) : ParamDef :=
  ⟨name, ParamRange.discrete min max step⟩

/-- Rust `ParamDef::categorical`. -/
def ParamDef.categorical (name : String) (choices : List String) : ParamDef :=
  ⟨name, ParamRange.categorical choices⟩

/-- Rust free function `neg_infinity` (serde default for `ValueRange.min`). -/
def neg_infinity : F64 := F64.negInf

/-- Rust free function `infinity` (serde default for `ValueRange.max`). -/
def infinity : F64 := F64.inf

/-- Rust `is_neg_infinity` (`*v == f64::NEG_INFINITY`; false on NaN). -/
def is_neg_infinity : F64 → Bool
  | .negInf => true
  | _ => false

/-- Rust `is_infinity` (`*v == f64::INFINITY`; false on NaN). -/
def is_infinity : F64 → Bool
  | .inf => true
  | _ => false

/-- Rust `ValueRange`. -/
structure ValueRange where
  min : F64
  max : F64
deriving DecidableEq

/-- Rust `ValueRange::default()`: the unbounded interval. -/
def ValueRange.default : ValueRange := ⟨F64.negInf, F64.inf⟩

/-- Rust `ValueRange::is_default` (`min == NEG_INFINITY && max == INFINITY`). -/
def ValueRange.is_default (vr : ValueRange) : Bool :=
  is_neg_infinity vr.min && is_infinity vr.max

/-- Rust `Direction` enum. -/
inductive Direction where
  | Minimize
  | Maximize
deriving DecidableEq

/-- Rust `Direction::better`: `x.min(y)` for `Minimize`, `x.max(y)` for
`Maximize`. -/
def Direction.better (d : Direction) (x y : F64) : F64 :=
  if d = Direction.Minimize then F64.min x y else F64.max x y

/-- Rust `Direction::is_minimize`. -/
def Direction.is_minimize (d : Direction) : Bool := decide (d = Direction.Minimize)

/-- Rust `Direction::is_maximize`. -/
def Direction.is_maximize (d : Direction) : Bool := decide (d = Direction.Maximize)

/-- Rust `ValueDef`. -/
structure ValueDef where
  name : String
  range : ValueRange
  direction : Direction
deriving DecidableEq

/-- Rust `ValueDef::new`: unbounded default range. -/
def ValueDef.new (name : String) (direction : Direction) : ValueDef :=
  ⟨name, ValueRange.default, direction⟩

/-- Rust `EvalState` enum. -/
inductive EvalState where
  | Complete
  | Interim
  | Failed
  | Infeasible
deriving DecidableEq

/-- Rust `EvalState::is_complete`. -/
def EvalState.is_complete (s : EvalState) : Bool := decide (s = EvalState.Complete)

/-- Rust `EvalState::is_interm`. -/
def EvalState.is_interm (s : EvalState) : Bool := decide (s = EvalState.Interim)

/-- Rust `EvalState::is_failed`. -/
def EvalState.is_failed (s : EvalState) : Bool := decide (s = EvalState.Failed)

/-- Rust `EvalState::is_infeasible`. -/
def EvalState.is_infeasible (s : EvalState) : Bool := decide (s = EvalState.Infeasible)

/-- Rust `StudyRecord`.  `attrs` is a `BTreeMap<String, String>`,
modelled as its sorted association list (strictly increasing keys). -/
structure StudyRecord where
  id : String
  attrs : List (String × String)
  spans : List SpanDef
  params : List ParamDef
  values : List ValueDef
deriving DecidableEq

/-- Rust `EvalRecord`.  `trial` is a `u32`, modelled as a natural number
(wire-validity requires it below `2^32`). -/
structure EvalRecord where
  study : String
  trial : Nat
  state : EvalState
  spans : List Span
  params : List F64
  values : List F64
deriving DecidableEq

/-- Rust `Record`: externally tagged union of the two record kinds
(the derive carries `rename_all = "kebab-case"` but no `tag`
attribute). -/
inductive Record where
  | Study (s : StudyRecord)
  | Eval (e : EvalRecord)
deriving DecidableEq

/-- serde_json encoding of a double: finite values as numbers, NaN and
the infinities as `null` (serde_json `Number` cannot carry them). -/
def encodeF64 : F64 → Json
  | .finite q => .num q
  | _ => .null

/-- `Scale` serializes as the upper-cased variant name. -/
def encodeScale : Scale → Json
  | .Linear => .str "LINEAR"
  | .Log => .str "LOG"

/-- `Direction` serializes as the upper-cased variant name. -/
def encodeDirection : Direction → Json
  | .Minimize => .str "MINIMIZE"
  | .Maximize => .str "MAXIMIZE"

/-- `EvalState` serializes as the upper-cased variant name. -/
def encodeEvalState : EvalState → Json
  | .Complete => .str "COMPLETE"
  | .Interim => .str "INTERIM"
  | .Failed => .str "FAILED"
  | .Infeasible => .str "INFEASIBLE"

/-- Derived `Span` serialization: two plain numeric fields. -/
def encodeSpan (s : Span) : Json :=
  .obj [("start", encodeF64 s.start), ("end", encodeF64 s.«end»)]

/-- Derived `SpanDef` serialization. -/
def encodeSpanDef (d : SpanDef) : Json :=
  .obj [("name", .str d.name)]

/-- Fields contributed by `ParamRange` (internally tagged with `type`,
kebab-case variant names; `step` omitted when `None`, `scale` omitted
when it is the default `Linear`). -/
def encodeParamRangeFields : ParamRange → List (String × Json)
  | .Numerical mn mx st sc =>
      [("type", .str "numerical"), ("min", encodeF64 mn), ("max", encodeF64 mx)]
        ++ (match st with
            | some v => [("step", encodeF64 v)]
            | none => [])
        ++ (if sc.is_default then [] else [("scale", encodeScale sc)])
  | .Categorical cs =>
      [("type", .str "categorical"), ("choices", .arr (cs.map Json.str))]

/-- Standalone `ParamRange` serialization. -/
def encodeParamRange (r : ParamRange) : Json :=
  .obj (encodeParamRangeFields r)

/-- Derived `ParamDef` serialization: `name` first, then the flattened
range fields merged into the same object. -/
def encodeParamDef (p : ParamDef) : Json :=
  .obj (("name", .str p.name) :: encodeParamRangeFields p.range)

/-- Derived `ValueRange` serialization: `min` omitted exactly when it is
negative infinity, `max` exactly when it is positive infinity. -/
def encodeValueRange (vr : ValueRange) : Json :=
  .obj ((if is_neg_infinity vr.min then [] else [("min", encodeF64 vr.min)])
    ++ (if is_infinity vr.max then [] else [("max", encodeF64 vr.max)]))

/-- Derived `ValueDef` serialization: the nested `range` object is
omitted when it equals the unbounded default. -/
def encodeValueDef (v : ValueDef) : Json :=
  .obj ([("name", .str v.name)]
    ++ (if v.range.is_default then [] else [("range", encodeValueRange v.range)])
    ++ [("direction", encodeDirection v.direction)])

/-- `BTreeMap<String, String>` serialization: the entries in key order
(which is how the model stores them). -/
def encodeAttrs (attrs : List (String × String)) : Json :=
  .obj (attrs.map (fun a => (a.1, Json.str a.2)))

/-- Derived `StudyRecord` serialization (field order follows the struct;
`rename_all = "kebab-case"` leaves these single-word names unchanged). -/
def encodeStudyRecord (s : StudyRecord) : Json :=
  .obj [("id", .str s.id),
        ("attrs", encodeAttrs s.attrs),
        ("spans", .arr (s.spans.map encodeSpanDef)),
        ("params", .arr (s.params.map encodeParamDef)),
        ("values", .arr (s.values.map encodeValueDef))]

namespace nullable_f64_vec

/-- Serialization of one `Option<f64>` element of the intermediate
vector. -/
def encodeOptEntry : Option F64 → Json
  | some v => encodeF64 v
  | none => .null

/-- Rust `nullable_f64_vec::serialize`: build `Vec<Option<f64>>` sending
every non-finite entry to `None`, then serialize it (so `None` becomes
`null`). -/
def serialize (v : List F64) : Json :=
  .arr ((v.map (fun x => if x.isFinite then some x else none)).map encodeOptEntry)

end nullable_f64_vec

/-- Derived `EvalRecord` serialization; `params` and `values` go through
`nullable_f64_vec`. -/
def encodeEvalRecord (e : EvalRecord) : Json :=
  .obj [("study", .str e.study),
        ("trial", .num (e.trial : ℚ)),
        ("state", encodeEvalState e.state),
        ("spans", .arr (e.spans.map encodeSpan)),
        ("params", nullable_f64_vec.serialize e.params),
        ("values", nullable_f64_vec.serialize e.values)]

/-- Derived `Record` serialization: externally tagged (no `tag`
attribute on the enum), so a single-field object named by the
kebab-cased variant, with the variant's record nested as its value. -/
def encodeRecord : Record → Json
  | .Study s => .obj [("study", encodeStudyRecord s)]
  | .Eval e => .obj [("eval", encodeEvalRecord e)]

/-- Required field: serde errors with "missing field" when absent. -/
def reqField (fs : List (String × Json)) (k : String) : Except String Json :=
  match getField fs k with
  | some v => .ok v
  | none => .error ("missing field " ++ k)

/-- Deserialize a `String`. -/
def decodeString : Json → Except String String
  | .str s => .ok s
  | _ => .error "invalid type: expected string"

/-- Deserialize an `f64`: serde_json numbers only (in particular `null`
is rejected, so a non-finite double does not survive a plain `f64`
field). -/
def decodeF64 : Json → Except String F64
  | .num q => .ok (.finite q)
  | _ => .error "invalid type: expected f64"

/-- Deserialize an `Option<f64>`: `null` is `None`, a number is `Some`. -/
def decodeOptF64 : Json → Except String (Option F64)
  | .null => .ok none
  | .num q => .ok (some (.finite q))
  | _ => .error "invalid type: expected nullable f64"

/-- Deserialize a `u32`: an integral number in `[0, 2^32)`. -/
def decodeU32 : Json → Except String Nat
  | .num q =>
      if q.den = 1 ∧ 0 ≤ q.num ∧ q.num < 4294967296 then .ok q.num.toNat
      else .error "invalid value: expected u32"
  | _ => .error "invalid type: expected u32"

/-- Deserialize a `Scale` from its upper-cased variant name. -/
def decodeScale : Json → Except String Scale
  | .str "LINEAR" => .ok .Linear
  | .str "LOG" => .ok .Log
  | _ => .error "unknown variant for Scale"

/-- Deserialize a `Direction` from its upper-cased variant name. -/
def decodeDirection : Json → Except String Direction
  | .str "MINIMIZE" => .ok .Minimize
  | .str "MAXIMIZE" => .ok .Maximize
  | _ => .error "unknown variant for Direction"

/-- Deserialize an `EvalState` from its upper-cased variant name. -/
def decodeEvalState : Json → Except String EvalState
  | .str "COMPLETE" => .ok .Complete
  | .str "INTERIM" => .ok .Interim
  | .str "FAILED" => .ok .Failed
  | .str "INFEASIBLE" => .ok .Infeasible
  | _ => .error "unknown variant for EvalState"

/-- Deserialize every element of a sequence, failing fast like a serde
seq visitor. -/
def decodeList (dec : Json → Except String α) : List Json → Except String (List α)
  | [] => .ok []
  | j :: js => do
      let x ← dec j
      let xs ← decodeList dec js
      .ok (x :: xs)

/-- Deserialize a `Vec`: a JSON array whose elements all decode. -/
def decodeJsonArr (dec : Json → Except String α) : Json → Except String (List α)
  | .arr js => decodeList dec js
  | _ => .error "invalid type: expected sequence"

/-- Deserialize a `Span`. -/
def decodeSpan : Json → Except String Span
  | .obj fs => do
      let st ← decodeF64 (← reqField fs "start")
      let en ← decodeF64 (← reqField fs "end")
      .ok ⟨st, en⟩
  | _ => .error "invalid type: expected map"

/-- Deserialize a `SpanDef`. -/
def decodeSpanDef : Json → Except String SpanDef
  | .obj fs => do
      let name ← decodeString (← reqField fs "name")
      .ok ⟨name⟩
  | _ => .error "invalid type: expected map"

/-- Deserialize a `ParamRange` (internally tagged by `type`): read the
tag, then the variant's fields from the same object; unknown tags are a
decode error, never a default variant. -/
def decodeParamRange : Json → Except String ParamRange
  | .obj fs => do
      let tag ← decodeString (← reqField fs "type")
      if tag = "numerical" then do
        let mn ← decodeF64 (← reqField fs "min")
        let mx ← decodeF64 (← reqField fs "max")
        let st ← (match getField fs "step" with
          | some j => decodeOptF64 j
          | none => .ok none)
        let sc ← (match getField fs "scale" with
          | some j => decodeScale j
          | none => .ok Scale.Linear)
        .ok (.Numerical mn mx st sc)
      else if tag = "categorical" then do
        let cs ← decodeJsonArr decodeString (← reqField fs "choices")
        .ok (.Categorical cs)
      else .error "unknown variant for ParamRange"
  | _ => .error "invalid type: expected map"

/-- Deserialize a `ParamDef`: `name` from the object, and the flattened
`ParamRange` from the remaining fields. -/
def decodeParamDef : Json → Except String ParamDef
  | .obj fs => do
      let name ← decodeString (← reqField fs "name")
      let range ← decodeParamRange (.obj (fs.filter (fun a => !(a.1 == "name"))))
      .ok ⟨name, range⟩
  | _ => .error "invalid type: expected map"

/-- Deserialize a `ValueRange`: each bound falls back to its infinite
default when the field is absent. -/
def decodeValueRange : Json → Except String ValueRange
  | .obj fs => do
      let mn ← (match getField fs "min" with
        | some j => decodeF64 j
        | none => .ok neg_infinity)
      let mx ← (match getField fs "max" with
        | some j => decodeF64 j
        | none => .ok infinity)
      .ok ⟨mn, mx⟩
  | _ => .error "invalid type: expected map"

/-- Deserialize a `ValueDef`: missing `range` yields the unbounded
default. -/
def decodeValueDef : Json → Except String ValueDef
  | .obj fs => do
      let name ← decodeString (← reqField fs "name")
      let range ← (match getField fs "range" with
        | some j => decodeValueRange j
        | none => .ok ValueRange.default)
      let direction ← decodeDirection (← reqField fs "direction")
      .ok ⟨name, range, direction⟩
  | _ => .error "invalid type: expected map"

/-- `BTreeMap::insert` on the sorted association list model: place the
key at its ordered position, replacing an existing binding. -/
def btInsert : List (String × String) → String → String → List (String × String)
  | [], k, v => [(k, v)]
  | a :: rest, k, v =>
      if k < a.1 then (k, v) :: a :: rest
      else if k = a.1 then (k, v) :: rest
      else a :: btInsert rest k v

/-- Deserialize the entries of a string-to-string map in order. -/
def decodeAttrEntries : List (String × Json) → Except String (List (String × String))
  | [] => .ok []
  | (k, j) :: rest =>
      match j with
      | .str s => do
          let tail ← decodeAttrEntries rest
          .ok ((k, s) :: tail)
      | _ => .error "invalid type: expected string"

/-- Deserialize a `BTreeMap<String, String>`: visit the entries in wire
order and insert each into the tree (later duplicates win). -/
def decodeAttrs : Json → Except String (List (String × String))
  | .obj fs => do
      let entries ← decodeAttrEntries fs
      .ok (entries.foldl (fun acc a => btInsert acc a.1 a.2) [])
  | _ => .error "invalid type: expected map"

/-- Deserialize a `StudyRecord`; `attrs` has a serde default (empty
map), every other field is required. -/
def decodeStudyRecord : Json → Except String StudyRecord
  | .obj fs => do
      let id ← decodeString (← reqField fs "id")
      let attrs ← (match getField fs "attrs" with
        | some j => decodeAttrs j
        | none => .ok [])
      let spans ← decodeJsonArr decodeSpanDef (← reqField fs "spans")
      let params ← decodeJsonArr decodeParamDef (← reqField fs "params")
      let values ← decodeJsonArr decodeValueDef (← reqField fs "values")
      .ok ⟨id, attrs, spans, params, values⟩
  | _ => .error "invalid type: expected map"

namespace nullable_f64_vec

/-- Rust `nullable_f64_vec::deserialize`: read a `Vec<Option<f64>>`,
then map `None` back to NaN and `Some` to its value. -/
def deserialize (j : Json) : Except String (List F64) := do
  let v ← decodeJsonArr decodeOptF64 j
  .ok (v.map (fun o => match o with | some x => x | none => F64.nan))

end nullable_f64_vec

/-- Deserialize an `EvalRecord`; all fields required, `params` and
`values` through `nullable_f64_vec`. -/
def decodeEvalRecord : Json → Except String EvalRecord
  | .obj fs => do
      let study ← decodeString (← reqField fs "study")
      let trial ← decodeU32 (← reqField fs "trial")
      let state ← decodeEvalState (← reqField fs "state")
      let spans ← decodeJsonArr decodeSpan (← reqField fs "spans")
      let params ← nullable_f64_vec.deserialize (← reqField fs "params")
      let values ← nullable_f64_vec.deserialize (← reqField fs "values")
      .ok ⟨study, trial, state, spans, params, values⟩
  | _ => .error "invalid type: expected map"

/-- Deserialize a `Record` (externally tagged): the first key of the map
names the variant — unknown names are an error, an empty map is an
error, and trailing entries after the variant payload are an error. -/
def decodeRecord : Json → Except String Record
  | .obj ((k, v) :: rest) =>
      if k = "study" then do
        let s ← decodeStudyRecord v
        if rest.isEmpty then .ok (.Study s) else .error "expected map with a single key"
      else if k = "eval" then do
        let e ← decodeEvalRecord v
        if rest.isEmpty then .ok (.Eval e) else .error "expected map with a single key"
      else .error "unknown variant for Record"
  | .obj [] => .error "expected externally tagged enum, found empty map"
  | _ => .error "invalid type: expected map"

/-- True exactly on decode errors. -/
def isErr : Except String α → Bool
  | .error _ => true
  | .ok _ => false

/-- What the codec does to one entry across a round trip: finite values
survive, every non-finite value comes back as NaN. -/
def toNanIfNonFinite (v : F64) : F64 :=
  if v.isFinite then v else F64.nan

/-- A params/values entry survives the nullable codec unchanged iff it
is finite or NaN. -/
def nullableEntrySafe (v : F64) : Bool := v.isFinite || v.isNan

/-- A plain `f64` field survives the wire iff it is finite. -/
def Span.wireSafe (s : Span) : Bool := s.start.isFinite && s.«end».isFinite

/-- An optional step survives iff absent or finite. -/
def optF64WireSafe : Option F64 → Bool
  | none => true
  | some v => v.isFinite

/-- A `ParamRange` survives the wire iff its numeric payload is
finite. -/
def ParamRange.wireSafe : ParamRange → Bool
  | .Numerical mn mx st _ => mn.isFinite && mx.isFinite && optF64WireSafe st
  | .Categorical _ => true

/-- A `ParamDef` survives iff its range does. -/
def ParamDef.wireSafe (p : ParamDef) : Bool := p.range.wireSafe

/-- A `ValueRange` survives iff each bound is finite or equal to the
infinite default that gets omitted. -/
def ValueRange.wireSafe (vr : ValueRange) : Bool :=
  (vr.min.isFinite || is_neg_infinity vr.min) && (vr.max.isFinite || is_infinity vr.max)

/-- A `ValueDef` survives iff its range does. -/
def ValueDef.wireSafe (v : ValueDef) : Bool := v.range.wireSafe

/-- Strictly increasing keys: the `BTreeMap` representation invariant of
the `attrs` model. -/
def sortedKeys : List (String × String) → Bool
  | [] => true
  | a :: rest => rest.all (fun x => decide (a.1 < x.1)) && sortedKeys rest

/-- A `StudyRecord` is wire-safe when its attrs list is a valid
`BTreeMap` image and each nested definition is wire-safe. -/
def StudyRecord.wireSafe (s : StudyRecord) : Bool :=
  sortedKeys s.attrs && s.params.all ParamDef.wireSafe && s.values.all ValueDef.wireSafe

/-- The parts of an `EvalRecord` other than the two nullable vectors are
wire-safe when the trial id fits `u32` (automatic in Rust) and the span
bounds are finite. -/
def EvalRecord.headerSafe (e : EvalRecord) : Bool :=
  decide (e.trial < 4294967296) && e.spans.all Span.wireSafe

/-- Full wire-safety of an `EvalRecord`: additionally no entry of
`params`/`values` is an infinity. -/
def EvalRecord.wireSafe (e : EvalRecord) : Bool :=
  e.headerSafe && e.params.all nullableEntrySafe && e.values.all nullableEntrySafe

/-- Wire-safety of a `Record`. -/
def Record.wireSafe : Record → Bool
  | .Study s => s.wireSafe
  | .Eval e => e.wireSafe

@[simp] theorem exceptBind_ok (a : α) (f : α → Except String β) :
    (Except.ok a >>= f) = f a := rfl

@[simp] theorem exceptBind_error (msg : String) (f : α → Except String β) :
    ((Except.error msg : Except String α) >>= f) = Except.error msg := rfl

theorem F64.isFinite_iff (v : F64) : v.isFinite = true ↔ ∃ q, v = .finite q := by
  cases v <;> simp [F64.isFinite]

theorem rt_f64 (q : ℚ) : decodeF64 (encodeF64 (.finite q)) = .ok (.finite q) := rfl

theorem rt_scale (s : Scale) : decodeScale (encodeScale s) = .ok s := by
  cases s <;> rfl

theorem rt_direction (d : Direction) : decodeDirection (encodeDirection d) = .ok d := by
  cases d <;> rfl

theorem rt_evalState (s : EvalState) : decodeEvalState (encodeEvalState s) = .ok s := by
  cases s <;> rfl

theorem rt_u32 (n : ℕ) (h : n < 4294967296) : decodeU32 (Json.num (n : ℚ)) = .ok n := by
  simp only [decodeU32, Rat.den_natCast, Rat.num_natCast, Int.toNat_natCast]
  rw [if_pos]
  exact ⟨by norm_num, Int.natCast_nonneg n, by exact_mod_cast h⟩

theorem rt_span (s : Span) (h : s.wireSafe = true) :
    decodeSpan (encodeSpan s) = .ok s := by
  obtain ⟨hs, he⟩ := by simpa [Span.wireSafe, Bool.and_eq_true] using h
  obtain ⟨a, ha⟩ := (F64.isFinite_iff _).1 hs
  obtain ⟨b, hb⟩ := (F64.isFinite_iff _).1 he
  obtain ⟨st, en⟩ := s
  simp only at ha hb
  subst ha hb
  rfl

theorem rt_spanDef (d : SpanDef) : decodeSpanDef (encodeSpanDef d) = .ok d := rfl

theorem decodeList_map (dec : Json → Except String α) (enc : α → Json) (xs : List α)
    (h : ∀ x ∈ xs, dec (enc x) = .ok x) :
    decodeList dec (xs.map enc) = .ok xs := by
  induction xs with
  | nil => rfl
  | cons x xs ih =>
      simp only [List.map_cons, decodeList, h x (List.mem_cons_self x xs),
        ih (fun y hy => h y (List.mem_cons_of_mem x hy)), exceptBind_ok]

theorem rt_stringList (cs : List String) :
    decodeJsonArr decodeString (.arr (cs.map Json.str)) = .ok cs := by
  simp only [decodeJsonArr]
  exact decodeList_map _ _ _ (fun x _ => rfl)

theorem rt_paramRange (r : ParamRange) (h : r.wireSafe = true) :
    decodeParamRange (.obj (encodeParamRangeFields r)) = .ok r := by
  cases r with
  | Numerical mn mx st sc =>
      simp only [ParamRange.wireSafe, Bool.and_eq_true] at h
      obtain ⟨⟨hmn, hmx⟩, hst⟩ := h
      obtain ⟨a, rfl⟩ := (F64.isFinite_iff _).1 hmn
      obtain ⟨b, rfl⟩ := (F64.isFinite_iff _).1 hmx
      cases st with
      | none => cases sc <;> rfl
      | some v =>
          obtain ⟨c, rfl⟩ := (F64.isFinite_iff _).1 (by simpa [optF64WireSafe] using hst)
          cases sc <;> rfl
  | Categorical cs =>
      simp only [encodeParamRangeFields, decodeParamRange, reqField, getField, decodeString]
      simp [rt_stringList]

theorem filter_rangeFields (r : ParamRange) :
    (encodeParamRangeFields r).filter (fun a => !(a.1 == "name")) = encodeParamRangeFields r := by
  cases r with
  | Numerical mn mx st sc => cases st <;> cases sc <;> rfl
  | Categorical cs => rfl

theorem rt_paramDef (p : ParamDef) (h : p.wireSafe = true) :
    decodeParamDef (encodeParamDef p) = .ok p := by
  obtain ⟨name, range⟩ := p
  have hr : decodeParamRange (.obj (encodeParamRangeFields range)) = .ok range :=
    rt_paramRange range h
  simp [encodeParamDef, decodeParamDef, reqField, getField, decodeString,
    List.filter, filter_rangeFields, hr]

theorem rt_valueRange (vr : ValueRange) (h : vr.wireSafe = true) :
    decodeValueRange (encodeValueRange vr) = .ok vr := by
  obtain ⟨mn, mx⟩ := vr
  cases mn <;> cases mx <;>
    first
    | rfl
    | simp [ValueRange.wireSafe, F64.isFinite, is_neg_infinity, is_infinity] at h

theorem is_default_iff (vr : ValueRange) :
    vr.is_default = true ↔ vr = ValueRange.default := by
  obtain ⟨mn, mx⟩ := vr
  cases mn <;> cases mx <;>
    simp [ValueRange.is_default, ValueRange.default, is_neg_infinity, is_infinity]

theorem rt_valueDef (v : ValueDef) (h : v.wireSafe = true) :
    decodeValueDef (encodeValueDef v) = .ok v := by
  obtain ⟨name, range, dir⟩ := v
  by_cases hd : range.is_default = true
  · obtain rfl : range = ValueRange.default := (is_default_iff range).1 hd
    cases dir <;> rfl
  · have hd' : range.is_default = false := by simpa using hd
    have hr : decodeValueRange (encodeValueRange range) = .ok range :=
      rt_valueRange range h
    simp [encodeValueDef, decodeValueDef, hd', reqField, getField, decodeString,
      hr, rt_direction]

theorem btInsert_append (acc : List (String × String)) (k v : String)
    (h : acc.all (fun a => decide (a.1 < k)) = true) :
    btInsert acc k v = acc ++ [(k, v)] := by
  induction acc with
  | nil => rfl
  | cons a rest ih =>
      simp only [List.all_cons, Bool.and_eq_true, decide_eq_true_eq] at h
      obtain ⟨h1, h2⟩ := h
      simp only [btInsert, if_neg (lt_asymm h1), if_neg (ne_of_gt h1), ih h2,
        List.cons_append]

theorem foldl_btInsert_aux (l : List (String × String)) :
    ∀ acc : List (String × String),
      (∀ b ∈ l, acc.all (fun a => decide (a.1 < b.1)) = true) →
      sortedKeys l = true →
      l.foldl (fun acc a => btInsert acc a.1 a.2) acc = acc ++ l := by
  induction l with
  | nil => intro acc _ _; simp
  | cons b rest ih =>
      intro acc hacc hl
      simp only [sortedKeys, Bool.and_eq_true] at hl
      have hb : rest.all (fun x => decide (b.1 < x.1)) = true := hl.1
      simp only [List.foldl_cons]
      rw [btInsert_append acc b.1 b.2 (hacc b (List.mem_cons_self b rest))]
      rw [ih (acc ++ [b]) ?_ hl.2]
      · simp
      · intro c hc
        have h1 : acc.all (fun a => decide (a.1 < c.1)) = true :=
          hacc c (List.mem_cons_of_mem b hc)
        have h2 : b.1 < c.1 := by
          have := List.all_eq_true.1 hb c hc
          simpa using this
        simp only [List.all_append, Bool.and_eq_true]
        exact ⟨h1, by simpa using h2⟩

theorem decodeAttrEntries_map (attrs : List (String × String)) :
    decodeAttrEntries (attrs.map (fun a => (a.1, Json.str a.2))) = .ok attrs := by
  induction attrs with
  | nil => rfl
  | cons a rest ih => simp only [List.map_cons, decodeAttrEntries, ih, exceptBind_ok]

theorem rt_attrs (attrs : List (String × String)) (h : sortedKeys attrs = true) :
    decodeAttrs (encodeAttrs attrs) = .ok attrs := by
  simp only [encodeAttrs, decodeAttrs, decodeAttrEntries_map, exceptBind_ok]
  rw [foldl_btInsert_aux attrs [] (fun b _ => rfl) h]
  rfl

theorem rt_spanDefList (spans : List SpanDef) :
    decodeJsonArr decodeSpanDef (.arr (spans.map encodeSpanDef)) = .ok spans := by
  simp only [decodeJsonArr]
  exact decodeList_map _ _ _ (fun x _ => rt_spanDef x)

theorem rt_studyRecord (s : StudyRecord) (h : s.wireSafe = true) :
    decodeStudyRecord (encodeStudyRecord s) = .ok s := by
  obtain ⟨id, attrs, spans, params, values⟩ := s
  simp only [StudyRecord.wireSafe, Bool.and_eq_true] at h
  obtain ⟨⟨hattrs, hparams⟩, hvalues⟩ := h
  have h1 : decodeAttrs (encodeAttrs attrs) = .ok attrs := rt_attrs attrs hattrs
  have h2 : decodeJsonArr decodeParamDef (.arr (params.map encodeParamDef))
      = .ok params := by
    simp only [decodeJsonArr]
    exact decodeList_map _ _ _
      (fun x hx => rt_paramDef x (List.all_eq_true.1 hparams x hx))
  have h3 : decodeJsonArr decodeValueDef (.arr (values.map encodeValueDef))
      = .ok values := by
    simp only [decodeJsonArr]
    exact decodeList_map _ _ _
      (fun x hx => rt_valueDef x (List.all_eq_true.1 hvalues x hx))
  simp [encodeStudyRecord, decodeStudyRecord, reqField, getField, decodeString,
    h1, h2, h3, rt_spanDefList]

theorem rt_nullableEntry (x : F64) :
    nullable_f64_vec.encodeOptEntry (if x.isFinite then some x else none)
      = (if x.isFinite then Json.num (match x with | .finite q => q | _ => 0) else Json.null) := by
  cases x <;> rfl

theorem rt_nullable (vs : List F64) :
    nullable_f64_vec.deserialize (nullable_f64_vec.serialize vs)
      = .ok (vs.map toNanIfNonFinite) := by
  simp only [nullable_f64_vec.serialize, nullable_f64_vec.deserialize, decodeJsonArr]
  have h : decodeList decodeOptF64
      ((vs.map (fun x => if x.isFinite then some x else none)).map
        nullable_f64_vec.encodeOptEntry)
      = .ok (vs.map (fun x => if x.isFinite then some x else none)) := by
    apply decodeList_map
    intro o ho
    obtain ⟨x, _, rfl⟩ := List.mem_map.1 ho
    cases x <;> rfl
  rw [h, exceptBind_ok, List.map_map]
  congr 1
  apply List.map_congr_left
  intro x _
  cases x <;> rfl

theorem rt_evalRecord_norm (e : EvalRecord) (h : e.headerSafe = true) :
    decodeEvalRecord (encodeEvalRecord e)
      = .ok { e with params := e.params.map toNanIfNonFinite,
                     values := e.values.map toNanIfNonFinite } := by
  obtain ⟨study, trial, state, spans, params, values⟩ := e
  simp only [EvalRecord.headerSafe, Bool.and_eq_true, decide_eq_true_eq] at h
  obtain ⟨htrial, hspans⟩ := h
  have h2 : decodeJsonArr decodeSpan (.arr (spans.map encodeSpan)) = .ok spans := by
    simp only [decodeJsonArr]
    exact decodeList_map _ _ _
      (fun x hx => rt_span x (List.all_eq_true.1 hspans x hx))
  simp only [encodeEvalRecord]
  generalize hq : ((trial : ℕ) : ℚ) = q
  have h1 : decodeU32 (Json.num q) = .ok trial := hq ▸ rt_u32 trial htrial
  simp only [decodeEvalRecord, reqField, getField, decodeString,
    String.reduceEq, reduceIte]
  rw [exceptBind_ok, exceptBind_ok, exceptBind_ok, h1, exceptBind_ok,
      exceptBind_ok, rt_evalState, exceptBind_ok, exceptBind_ok, h2, exceptBind_ok,
      exceptBind_ok, rt_nullable, exceptBind_ok, exceptBind_ok, rt_nullable,
      exceptBind_ok]

theorem map_toNanIfNonFinite_id (vs : List F64) (h : vs.all nullableEntrySafe = true) :
    vs.map toNanIfNonFinite = vs := by
  induction vs with
  | nil => rfl
  | cons x rest ih =>
      simp only [List.all_cons, Bool.and_eq_true] at h
      obtain ⟨hx, hrest⟩ := h
      have : toNanIfNonFinite x = x := by
        cases x <;> simp_all [toNanIfNonFinite, nullableEntrySafe, F64.isFinite, F64.isNan]
      simp [List.map_cons, this, ih hrest]

theorem rt_evalRecord (e : EvalRecord) (h : e.wireSafe = true) :
    decodeEvalRecord (encodeEvalRecord e) = .ok e := by
  simp only [EvalRecord.wireSafe, Bool.and_eq_true] at h
  obtain ⟨⟨hh, hp⟩, hv⟩ := h
  rw [rt_evalRecord_norm e hh, map_toNanIfNonFinite_id _ hp, map_toNanIfNonFinite_id _ hv]

theorem rt_record (r : Record) (h : r.wireSafe = true) :
    decodeRecord (encodeRecord r) = .ok r := by
  cases r with
  | Study s =>
      have := rt_studyRecord s (by simpa [Record.wireSafe] using h)
      simp [encodeRecord, decodeRecord, this]
  | Eval e =>
      have := rt_evalRecord e (by simpa [Record.wireSafe] using h)
      simp [encodeRecord, decodeRecord, this]

theorem F64.le_refl' (x : F64) (hx : x.isNan = false) : F64.le x x = true := by
  cases x <;> simp [F64.le, F64.isNan] at hx ⊢

theorem F64.le_total' (x y : F64) (hx : x.isNan = false) (hy : y.isNan = false) :
    F64.le x y = true ∨ F64.le y x = true := by
  cases x <;> cases y <;> simp_all [F64.le, F64.isNan]
  all_goals exact le_total _ _

/-- C1 (amended): decode after encode is the identity on every `Record`
whose floating-point content is representable on the wire — span bounds
finite, numerical range bounds finite and `step` absent or finite,
value-range bounds finite or equal to the omitted infinite default, and
every `params`/`values` entry finite or NaN.  NaN entries survive the
nullable codec as NaN.  (The unrestricted claim is refuted by
`C1_roundtrip_counterexample`: an infinity in `params` decodes back as
NaN.) -/
theorem C1_roundtrip (r : Record) (h : r.wireSafe = true) :
    decodeRecord (encodeRecord r) = .ok r :=
  rt_record r h

/-- C1 witness: a concrete eval record with a NaN parameter entry
round-trips unchanged, the NaN surviving as NaN. -/
theorem C1_roundtrip_witness :
    (Record.Eval ⟨"s", 0, EvalState.Interim, [], [F64.nan], [F64.finite 1]⟩).wireSafe = true
    ∧ decodeRecord (encodeRecord
        (Record.Eval ⟨"s", 0, EvalState.Interim, [], [F64.nan], [F64.finite 1]⟩))
      = .ok (Record.Eval ⟨"s", 0, EvalState.Interim, [], [F64.nan], [F64.finite 1]⟩) :=
  ⟨by decide, C1_roundtrip _ (by decide)⟩

/-- C1 counterexample: the claim as stated quantifies over every
constructible `Record`, but a record with `+inf` in `params` is
constructible and decodes back with NaN there instead, so
`decode (encode r) ≠ r`. -/
theorem C1_roundtrip_counterexample :
    decodeRecord (encodeRecord
        (Record.Eval ⟨"s", 0, EvalState.Complete, [], [F64.inf], []⟩))
      = .ok (Record.Eval ⟨"s", 0, EvalState.Complete, [], [F64.nan], []⟩)
    ∧ Record.Eval ⟨"s", 0, EvalState.Complete, [], [F64.nan], []⟩
      ≠ Record.Eval ⟨"s", 0, EvalState.Complete, [], [F64.inf], []⟩ :=
  ⟨rfl, by decide⟩

/-- C2 (amended): `Record` is externally tagged on the wire: the
encoding is a single-field object whose field name is the kebab-cased
variant name (`"study"`/`"eval"`) and whose value is the variant
record's own object, nested — there is no top-level `"type"`
discriminator and no flattening of the variant's fields. -/
theorem C2_external_tagging (s : StudyRecord) (e : EvalRecord) :
    encodeRecord (Record.Study s) = Json.obj [("study", encodeStudyRecord s)]
    ∧ encodeRecord (Record.Eval e) = Json.obj [("eval", encodeEvalRecord e)] :=
  ⟨rfl, rfl⟩

/-- C2 counterexample: the encoding of a concrete study record has no
top-level `"type"` field at all (the claim says it always does). -/
theorem C2_external_tagging_counterexample :
    Json.lookup (encodeRecord (Record.Study ⟨"s1", [], [], [], []⟩)) "type" = none :=
  rfl

/-- C3 (amended): the nullable-float codec sends every non-finite entry
(NaN and both infinities) to `null` and every finite entry to its
numeric value; decoding maps `null` to NaN and a number to itself, so
decode after encode normalizes every entry through `toNanIfNonFinite`.
The spec's two examples hold as stated. -/
theorem C3_nullable_codec (vs : List F64) :
    nullable_f64_vec.deserialize (nullable_f64_vec.serialize vs)
      = .ok (vs.map toNanIfNonFinite)
    ∧ nullable_f64_vec.serialize [F64.finite 1, F64.nan, F64.finite (5/2)]
      = Json.arr [Json.num 1, Json.null, Json.num (5/2)]
    ∧ nullable_f64_vec.deserialize (Json.arr [Json.null, Json.null])
      = .ok [F64.nan, F64.nan] :=
  ⟨rt_nullable vs, rfl, rfl⟩

/-- C3 counterexample: the claim says every entry other than NaN encodes
to its numeric value, but the serializer tests `is_finite`, so `+inf`
(not a NaN) encodes to `null` and comes back as NaN. -/
theorem C3_nullable_codec_counterexample :
    nullable_f64_vec.serialize [F64.inf] = Json.arr [Json.null]
    ∧ nullable_f64_vec.deserialize (nullable_f64_vec.serialize [F64.inf])
      = .ok [F64.nan]
    ∧ F64.nan ≠ F64.inf :=
  ⟨rfl, rfl, by decide⟩

/-- C4: the nullable-float serializer nulls every non-finite entry
(infinities exactly like NaN), so decoding the encoding of any
`EvalRecord` returns each `params`/`values` entry through
`toNanIfNonFinite` — an infinite entry comes back as NaN, not as the
original infinity. -/
theorem C4_infinity_to_null (e : EvalRecord) (h : e.headerSafe = true) :
    decodeEvalRecord (encodeEvalRecord e)
      = .ok { e with params := e.params.map toNanIfNonFinite,
                     values := e.values.map toNanIfNonFinite }
    ∧ (∀ v : F64, v.isFinite = false → nullable_f64_vec.serialize [v] = Json.arr [Json.null])
    ∧ toNanIfNonFinite F64.inf = F64.nan
    ∧ toNanIfNonFinite F64.negInf = F64.nan := by
  refine ⟨rt_evalRecord_norm e h, ?_, rfl, rfl⟩
  intro v hv
  cases v with
  | finite q => simp [F64.isFinite] at hv
  | inf => rfl
  | negInf => rfl
  | nan => rfl

/-- C4 witness: a concrete record with `+inf` in `params` and `-inf` in
`values` decodes back with NaN at those positions. -/
theorem C4_infinity_to_null_witness :
    EvalRecord.headerSafe
        ⟨"s", 1, EvalState.Interim, [Span.new (F64.finite 0) (F64.finite 2)],
         [F64.inf], [F64.negInf, F64.nan, F64.finite 3]⟩ = true
    ∧ decodeEvalRecord (encodeEvalRecord
        ⟨"s", 1, EvalState.Interim, [Span.new (F64.finite 0) (F64.finite 2)],
         [F64.inf], [F64.negInf, F64.nan, F64.finite 3]⟩)
      = .ok ⟨"s", 1, EvalState.Interim, [Span.new (F64.finite 0) (F64.finite 2)],
             [F64.nan], [F64.nan, F64.nan, F64.finite 3]⟩ :=
  ⟨by decide, (C4_infinity_to_null _ (by decide)).1⟩

/-- C5: decoding rejects malformed input with a typed error and never
falls back to a default variant: an unknown `Record` tag, a missing tag
(empty map), a tag whose payload is malformed, a `ParamRange` object
without a `type` field, and a `ParamRange` whose `type` value is
neither `"numerical"` nor `"categorical"` all fail. -/
theorem C5_malformed_rejected (k : String) (v : Json)
    (hk1 : k ≠ "study") (hk2 : k ≠ "eval")
    (fs : List (String × Json)) (ht : getField fs "type" = none)
    (fs2 : List (String × Json)) (t : String)
    (ht2 : getField fs2 "type" = some (Json.str t))
    (hn : t ≠ "numerical") (hc : t ≠ "categorical") :
    isErr (decodeRecord (Json.obj [(k, v)])) = true
    ∧ isErr (decodeRecord (Json.obj [])) = true
    ∧ isErr (decodeRecord (Json.obj [("study", Json.obj [])])) = true
    ∧ isErr (decodeParamRange (Json.obj fs)) = true
    ∧ isErr (decodeParamRange (Json.obj fs2)) = true := by
  refine ⟨?_, rfl, rfl, ?_, ?_⟩
  · simp [decodeRecord, hk1, hk2, isErr]
  · simp [decodeParamRange, reqField, ht, isErr]
  · simp [decodeParamRange, reqField, ht2, decodeString, hn, hc, isErr]

/-- C5 witness: concrete malformed inputs — tag `"bogus"`, an empty
object, a study tag with an empty payload, a `ParamRange` without
`type`, and a `ParamRange` with `type = "bogus"` — are all rejected. -/
theorem C5_malformed_rejected_witness :
    isErr (decodeRecord (Json.obj [("bogus", Json.null)])) = true
    ∧ isErr (decodeRecord (Json.obj [])) = true
    ∧ isErr (decodeRecord (Json.obj [("study", Json.obj [])])) = true
    ∧ isErr (decodeParamRange (Json.obj [])) = true
    ∧ isErr (decodeParamRange (Json.obj [("type", Json.str "bogus")])) = true :=
  C5_malformed_rejected "bogus" Json.null (by decide) (by decide)
    [] rfl [("type", Json.str "bogus")] "bogus" rfl (by decide) (by decide)

/-- C6: the `min` field of an encoded `ValueRange` is omitted exactly
when it equals negative infinity and `max` exactly when it equals
positive infinity; the unbounded default encodes as the empty object,
and decoding an object with both fields absent yields the unbounded
default. -/
theorem C6_default_omission :
    (∀ vr : ValueRange,
      (Json.lookup (encodeValueRange vr) "min" = none ↔ vr.min = F64.negInf)
      ∧ (Json.lookup (encodeValueRange vr) "max" = none ↔ vr.max = F64.inf))
    ∧ encodeValueRange ValueRange.default = Json.obj []
    ∧ decodeValueRange (Json.obj []) = .ok ValueRange.default := by
  refine ⟨?_, rfl, rfl⟩
  intro vr
  obtain ⟨mn, mx⟩ := vr
  constructor
  · cases mn <;> cases mx <;>
      simp [encodeValueRange, Json.lookup, getField, is_neg_infinity, is_infinity,
        encodeF64]
  · cases mn <;> cases mx <;>
      simp [encodeValueRange, Json.lookup, getField, is_neg_infinity, is_infinity,
        encodeF64]

/-- C7: a `ParamDef` encodes with the flattened range fields next to
`name` and a `type` discriminator holding `"numerical"` or
`"categorical"`; `step` is omitted when absent, `scale` when it is the
default `Linear`; the spec's example shape is produced exactly. -/
theorem C7_paramdef_encoding (name : String) (mn mx st : F64) (cs : List String) :
    encodeParamDef ⟨name, ParamRange.Numerical mn mx none Scale.Linear⟩
      = Json.obj [("name", Json.str name), ("type", Json.str "numerical"),
                  ("min", encodeF64 mn), ("max", encodeF64 mx)]
    ∧ encodeParamDef ⟨name, ParamRange.Numerical mn mx (some st) Scale.Log⟩
      = Json.obj [("name", Json.str name), ("type", Json.str "numerical"),
                  ("min", encodeF64 mn), ("max", encodeF64 mx),
                  ("step", encodeF64 st), ("scale", Json.str "LOG")]
    ∧ encodeParamDef ⟨name, ParamRange.Categorical cs⟩
      = Json.obj [("name", Json.str name), ("type", Json.str "categorical"),
                  ("choices", Json.arr (cs.map Json.str))]
    ∧ encodeParamDef (ParamDef.log_continuous "lr" (F64.finite (1/100000)) (F64.finite 1))
      = Json.obj [("name", Json.str "lr"), ("type", Json.str "numerical"),
                  ("min", Json.num (1/100000)), ("max", Json.num 1),
                  ("scale", Json.str "LOG")] :=
  ⟨rfl, rfl, rfl, rfl⟩

/-- C8: on a categorical range `min()` is `0.0` and `max()` is the
choice count as a float, for every choice list and in particular for
`["a", "b", "c"]`. -/
theorem C8_categorical_accessors (cs : List String) :
    (ParamRange.Categorical cs).min = F64.finite 0
    ∧ (ParamRange.Categorical cs).max = F64.finite (cs.length : ℚ)
    ∧ (ParamRange.Categorical ["a", "b", "c"]).min = F64.finite 0
    ∧ (ParamRange.Categorical ["a", "b", "c"]).max = F64.finite 3 := by
  refine ⟨rfl, rfl, rfl, ?_⟩
  show F64.finite ((3 : ℕ) : ℚ) = F64.finite 3
  norm_num

/-- C9: on non-NaN arguments `better` returns one of its two arguments,
and it is a lower bound of both for `Minimize` and an upper bound of
both for `Maximize` — i.e. the minimum resp. maximum; in particular
`Minimize.better(3, 5) = 3` and `Maximize.better(3, 5) = 5`. -/
theorem C9_better_minmax (x y : F64) (hx : x.isNan = false) (hy : y.isNan = false) :
    (Direction.Minimize.better x y = x ∨ Direction.Minimize.better x y = y)
    ∧ F64.le (Direction.Minimize.better x y) x = true
    ∧ F64.le (Direction.Minimize.better x y) y = true
    ∧ (Direction.Maximize.better x y = x ∨ Direction.Maximize.better x y = y)
    ∧ F64.le x (Direction.Maximize.better x y) = true
    ∧ F64.le y (Direction.Maximize.better x y) = true
    ∧ Direction.Minimize.better (F64.finite 3) (F64.finite 5) = F64.finite 3
    ∧ Direction.Maximize.better (F64.finite 3) (F64.finite 5) = F64.finite 5 := by
  have hmin : Direction.Minimize.better x y = if F64.le x y then x else y := by
    simp [Direction.better, F64.min, hx, hy]
  have hmax : Direction.Maximize.better x y = if F64.le y x then x else y := by
    simp [Direction.better, F64.max, hx, hy]
  refine ⟨?_, ?_, ?_, ?_, ?_, ?_, by decide, by decide⟩
  · rw [hmin]; by_cases h : F64.le x y = true <;> simp [h]
  · rw [hmin]; by_cases h : F64.le x y = true <;> simp [h]
    · exact F64.le_refl' x hx
    · exact (F64.le_total' x y hx hy).resolve_left (by simp [h])
  · rw [hmin]; by_cases h : F64.le x y = true <;> simp [h]
    · exact F64.le_refl' y hy
  · rw [hmax]; by_cases h : F64.le y x = true <;> simp [h]
  · rw [hmax]; by_cases h : F64.le y x = true <;> simp [h]
    · exact F64.le_refl' x hx
    · exact (F64.le_total' x y hx hy).resolve_right (by simp [h])
  · rw [hmax]; by_cases h : F64.le y x = true <;> simp [h]
    · exact F64.le_refl' y hy

/-- C9 witness: at the concrete pair `(3, 5)` the hypotheses hold and
the two concrete comparisons come out as the spec says. -/
theorem C9_better_minmax_witness :
    (F64.finite 3).isNan = false ∧ (F64.finite 5).isNan = false
    ∧ Direction.Minimize.better (F64.finite 3) (F64.finite 5) = F64.finite 3
    ∧ Direction.Maximize.better (F64.finite 3) (F64.finite 5) = F64.finite 5 :=
  ⟨rfl, rfl,
    (C9_better_minmax (F64.finite 3) (F64.finite 5) rfl rfl).2.2.2.2.2.2.1,
    (C9_better_minmax (F64.finite 3) (F64.finite 5) rfl rfl).2.2.2.2.2.2.2⟩

/-- C10: `Span.new` enforces nothing (it stores any two doubles, also
with `end < start`), and on the expected domain (`0 ≤ start ≤ end`,
within `Duration` range) `duration()` is `end − start` seconds; outside
it the accessor is partial (a reversed span panics, modelled as
`none`). -/
theorem C10_span_duration (s e : ℚ) (h0 : 0 ≤ s) (hse : s ≤ e)
    (hb : e < 18446744073709551616) :
    (Span.new (F64.finite s) (F64.finite e)).duration = some (e - s)
    ∧ (∀ x y : F64, (Span.new x y).start = x ∧ (Span.new x y).«end» = y)
    ∧ (Span.new (F64.finite 1) (F64.finite 0)).duration = none := by
  refine ⟨?_, fun x y => ⟨rfl, rfl⟩, by decide⟩
  have he : durationFromSecs (F64.finite e) = some e := by
    simp [durationFromSecs, le_trans h0 hse, hb]
  have hs : durationFromSecs (F64.finite s) = some s := by
    simp [durationFromSecs, h0, lt_of_le_of_lt hse hb]
  simp [Span.duration, Span.new, he, hs, durationSub, hse]

/-- C10 witness: the span from 1s to 3s has duration 2s, and the
hypotheses hold at those bounds. -/
theorem C10_span_duration_witness :
    (0 : ℚ) ≤ 1 ∧ (1 : ℚ) ≤ 3 ∧ (3 : ℚ) < 18446744073709551616
    ∧ (Span.new (F64.finite 1) (F64.finite 3)).duration = some 2 :=
  ⟨by norm_num, by norm_num, by norm_num, by
    have h := (C10_span_duration 1 3 (by norm_num) (by norm_num) (by norm_num)).1
    rw [show (3 : ℚ) - 1 = 2 from by norm_num] at h
    exact h⟩

end Hporecord
